import Mathlib

/-!
Verification of the frog_lang automatic-differentiation kernels.

The repository holds two generations of the same operation library,
`frog/ops.py` and `froog/ops.py`: forward/backward pairs over numpy
arrays.  This file is a shallow embedding of those kernels:

* a 4-dimensional numeric buffer becomes `Tensor4`, a shape together
  with a total index function into `ℚ` (the kernels use only ring and
  division operations, so exact rationals stand in for the floats;
  `Sigmoid`, which needs `exp`, is embedded over `ℝ`);
* Python's `assert`/`raise` become `Except` values;
* the convolution / pooling loops, which only ever write each output
  cell once (or accumulate with `+=` from an all-zero start), become
  the closed-form sum each cell ends up holding, written to mirror the
  loop structure of the source.

Where a helper lives in a file the repository does not carry
(`froog/utils.py`: `im2col`, `col2im`), the definition is modelled from
the specification and its doc comment says so.
-/

set_option maxHeartbeats 1000000

/-- A 4-d numeric buffer: shape `(bs, c, h, w)` plus a total index
function.  Reads outside the shape are never relied upon. -/
structure Tensor4 where
  bs : ℕ
  c : ℕ
  h : ℕ
  w : ℕ
  data : ℕ → ℕ → ℕ → ℕ → ℚ

/-- `Conv2D.forward`'s `stride` argument: a Python `int` or a pair. -/
inductive Stride where
  | int (s : ℕ)
  | pair (sy sx : ℕ)

/-- `if type(ctx.stride) == int: ctx.stride = (ctx.stride, ctx.stride)`
(froog/ops.py, Conv2D.forward). -/
def normalizeStride : Stride → ℕ × ℕ
  | .int s => (s, s)
  | .pair sy sx => (sy, sx)

/-- The error taxonomy of the spec, for the failure points of
`Conv2D.forward`: the two `assert`s on the group/channel configuration
(ParameterError) and numpy's rejection of a negative output dimension
at `np.zeros` (ShapeError). -/
inductive ConvErr where
  | parameterError
  | shapeError
  deriving DecidableEq

/-- `(x.shape[2]-(H-y_stride))//y_stride` (froog/ops.py line 224), as
Python integer arithmetic: signed subtraction, floor division. -/
def convOutDim (inDim k s : ℕ) : ℤ :=
  Int.fdiv ((inDim : ℤ) - ((k : ℤ) - (s : ℤ))) (s : ℤ)

/-- The value each cell of `ret` holds after the grouped-GEMM loop of
`Conv2D.forward` (froog/ops.py lines 230-239).  For output channel
`co`, the group is `co / (cout // groups)`; the cell `(b, co, Y, X)`
accumulates `tx.dot(tw)` once, i.e. the dot product of the flattened
receptive field with the flattened kernel row.  Cells outside the
`np.zeros((bs, cout, oy, ox))` loop range stay `0`. -/
def conv2dData (x w : Tensor4) (sy sx groups : ℕ) : ℕ → ℕ → ℕ → ℕ → ℚ :=
  fun b co Y X =>
    if (Y : ℤ) < convOutDim x.h w.h sy ∧ (X : ℤ) < convOutDim x.w w.w sx then
      ∑ ci in Finset.range w.c, ∑ i in Finset.range w.h, ∑ j in Finset.range w.w,
        x.data b ((co / (w.bs / groups)) * w.c + ci) (Y * sy + i) (X * sx + j)
          * w.data co ci i j
    else 0

/-- `Conv2D.forward` (froog/ops.py lines 203-239).  In source order:
normalize the stride, `assert cin*ctx.groups == cin_`,
`assert cout % ctx.groups == 0` (both AssertionErrors, the spec's
ParameterError), then `np.zeros((bs, cout, oy, ox))`, which numpy
rejects when a computed dimension is negative (the spec's ShapeError),
then the accumulation loop. -/
def conv2dForward (x w : Tensor4) (stride : Stride) (groups : ℕ) : Except ConvErr Tensor4 :=
  let s := normalizeStride stride
  if x.c ≠ w.c * groups then .error .parameterError
  else if w.bs % groups ≠ 0 then .error .parameterError
  else if convOutDim x.h w.h s.1 < 0 ∨ convOutDim x.w w.w s.2 < 0 then .error .shapeError
  else .ok ⟨x.bs, w.bs, (convOutDim x.h w.h s.1).toNat, (convOutDim x.w w.w s.2).toNat,
            conv2dData x w s.1 s.2 groups⟩

/-- What `Conv2D`'s context holds when backward runs:
`ctx.save_for_backward(x, w)` plus the (already normalized) stride and
the groups parameter. -/
structure Conv2DCtx where
  x : Tensor4
  w : Tensor4
  stride : ℕ × ℕ
  groups : ℕ

/-- The context `Conv2D.forward` leaves behind: the stride has been
normalized to a pair before being stored back into `ctx`. -/
def conv2dCtx (x w : Tensor4) (stride : Stride) (groups : ℕ) : Conv2DCtx :=
  ⟨x, w, normalizeStride stride, groups⟩

/-- The `dx` accumulated by `Conv2D.backward` (froog/ops.py lines
241-258): position `(b, c, p, q)` of `dx` receives
`gg.dot(tw)` contributions from every output window `(Y, X)` whose
receptive field covers `(p, q)`; for input channel `c` the group is
`c / cin` and the local channel `c % cin` (`cin = w.shape[1]`). -/
def conv2dBackwardDx (x w grad : Tensor4) (sy sx groups : ℕ) : Tensor4 :=
  ⟨x.bs, x.c, x.h, x.w, fun b c p q =>
    ∑ Y in Finset.range grad.h, ∑ X in Finset.range grad.w,
      ∑ oc in Finset.range (w.bs / groups),
        if Y * sy ≤ p ∧ p < Y * sy + w.h ∧ X * sx ≤ q ∧ q < X * sx + w.w then
          grad.data b ((c / w.c) * (w.bs / groups) + oc) Y X
            * w.data ((c / w.c) * (w.bs / groups) + oc) (c % w.c) (p - Y * sy) (q - X * sx)
        else 0⟩

/-- The `dw` accumulated by `Conv2D.backward`: kernel cell
`(co, ci, i, j)` receives `gg.T.dot(tx)` contributions summed over
every output position and every batch element; for output channel `co`
the group is `co / (cout // groups)`. -/
def conv2dBackwardDw (x w grad : Tensor4) (sy sx groups : ℕ) : Tensor4 :=
  ⟨w.bs, w.c, w.h, w.w, fun co ci i j =>
    ∑ Y in Finset.range grad.h, ∑ X in Finset.range grad.w, ∑ b in Finset.range x.bs,
      grad.data b co Y X
        * x.data b ((co / (w.bs / groups)) * w.c + ci) (Y * sy + i) (X * sx + j)⟩

/-- `Conv2D.backward` as the pair `(dx, dw)` computed from the saved
context. -/
def conv2dBackward (ctx : Conv2DCtx) (grad : Tensor4) : Tensor4 × Tensor4 :=
  (conv2dBackwardDx ctx.x ctx.w grad ctx.stride.1 ctx.stride.2 ctx.groups,
   conv2dBackwardDw ctx.x ctx.w grad ctx.stride.1 ctx.stride.2 ctx.groups)

/-- An all-ones buffer of the given shape. -/
def onesT (b c h w : ℕ) : Tensor4 := ⟨b, c, h, w, fun _ _ _ _ => 1⟩

/-- Python's `(h - (k - s)) // s` equals `(h - k) // s + 1` in plain
natural arithmetic once the kernel fits in the input (`k ≤ h`) and the
stride is positive. -/
theorem convOutDim_eq_of (h k s : ℕ) (hk : k ≤ h) (hs : 1 ≤ s) :
    convOutDim h k s = ((h - k) / s + 1 : ℕ) := by
  have hA : ((h : ℤ) - ((k : ℤ) - (s : ℤ))) = ((h - k + s : ℕ) : ℤ) := by
    push_cast [hk]
    ring
  rw [convOutDim, hA, Int.fdiv_eq_ediv _ (by positivity), ← Int.ofNat_ediv,
    Nat.add_div_right _ hs]

/-- With a consistent group/channel configuration and a kernel that
fits inside the input, `Conv2D.forward` succeeds, and the output shape
is the closed-form one. -/
theorem conv2dForward_ok (x w : Tensor4) (sy sx g : ℕ)
    (hc : x.c = w.c * g) (hcout : g ∣ w.bs)
    (hkh : w.h ≤ x.h) (hkw : w.w ≤ x.w) (hsy : 1 ≤ sy) (hsx : 1 ≤ sx) :
    conv2dForward x w (.pair sy sx) g
      = .ok ⟨x.bs, w.bs, (x.h - w.h) / sy + 1, (x.w - w.w) / sx + 1,
             conv2dData x w sy sx g⟩ := by
  have e1 := convOutDim_eq_of x.h w.h sy hkh hsy
  have e2 := convOutDim_eq_of x.w w.w sx hkw hsx
  have h1 : ¬ x.c ≠ w.c * g := not_not_intro hc
  have h2 : ¬ w.bs % g ≠ 0 := not_not_intro (Nat.mod_eq_zero_of_dvd hcout)
  have h3 : ¬ (convOutDim x.h w.h sy < 0 ∨ convOutDim x.w w.w sx < 0) := by
    rw [e1, e2]
    push_neg
    exact ⟨Int.natCast_nonneg _, Int.natCast_nonneg _⟩
  simp only [conv2dForward, normalizeStride]
  rw [if_neg h1, if_neg h2, if_neg h3, e1, e2, Int.toNat_natCast, Int.toNat_natCast]

/-- C4: Conv2D requires `cin % groups == 0` and `cout % groups == 0`;
violating either divisibility makes forward fail with a ParameterError
(the spec's kind for the two configuration `assert`s) and not with any
other error kind, while a consistent configuration with compatible
operand shapes succeeds. -/
theorem conv2d_groups_parameter_check :
    (∀ (x w : Tensor4) (st : Stride) (g : ℕ), 1 ≤ g → (¬ g ∣ x.c ∨ ¬ g ∣ w.bs) →
        conv2dForward x w st g = .error .parameterError) ∧
    (∀ (x w : Tensor4) (sy sx g : ℕ), 1 ≤ g → x.c = w.c * g → g ∣ w.bs →
        w.h ≤ x.h → w.w ≤ x.w → 1 ≤ sy → 1 ≤ sx →
        ∃ t, conv2dForward x w (.pair sy sx) g = .ok t) := by
  constructor
  · intro x w st g _ hviol
    by_cases h1 : x.c ≠ w.c * g
    · simp only [conv2dForward]
      rw [if_pos h1]
    · rw [not_not] at h1
      have hx : g ∣ x.c := h1 ▸ dvd_mul_left g w.c
      have h2 : w.bs % g ≠ 0 := by
        rcases hviol with hviol | hviol
        · exact absurd hx hviol
        · exact fun h => hviol (Nat.dvd_of_mod_eq_zero h)
      simp only [conv2dForward]
      rw [if_neg (not_not_intro h1), if_pos h2]
  · intro x w sy sx g _ hc hcout hkh hkw hsy hsx
    exact ⟨_, conv2dForward_ok x w sy sx g hc hcout hkh hkw hsy hsx⟩

/-- C4 witness: with 3 input channels and 2 groups (`2 ∤ 3`) forward is
a ParameterError; with a consistent 1-group configuration it succeeds. -/
theorem conv2d_groups_parameter_check_witness :
    conv2dForward (onesT 1 3 3 3) (onesT 2 1 2 2) (.pair 1 1) 2 = .error .parameterError ∧
    ∃ t, conv2dForward (onesT 1 2 3 3) (onesT 2 2 2 2) (.pair 1 1) 1 = .ok t :=
  ⟨conv2d_groups_parameter_check.1 _ _ _ 2 (by decide) (.inl (by decide)),
   conv2d_groups_parameter_check.2 _ _ 1 1 1 (by decide) (by decide) (by decide)
     (by decide) (by decide) (by decide) (by decide)⟩

/-- C5: for a kernel that fits in the input (`K_h ≤ H_in`, `K_w ≤ W_in`),
positive strides and a consistent group configuration, `Conv2D.forward`
returns a tensor of shape
`(batch, cout, (H_in - K_h)//s_y + 1, (W_in - K_w)//s_x + 1)`. -/
theorem conv2d_forward_output_shape (x w : Tensor4) (sy sx g : ℕ)
    (hg : 1 ≤ g) (hc : x.c = w.c * g) (hcout : g ∣ w.bs)
    (hkh : w.h ≤ x.h) (hkw : w.w ≤ x.w) (hsy : 1 ≤ sy) (hsx : 1 ≤ sx) :
    conv2dForward x w (.pair sy sx) g
      = .ok ⟨x.bs, w.bs, (x.h - w.h) / sy + 1, (x.w - w.w) / sx + 1,
             conv2dData x w sy sx g⟩ :=
  conv2dForward_ok x w sy sx g hc hcout hkh hkw hsy hsx

/-- C5 witness: a 2×4×5×7 input with a 6×2×3×3 kernel, stride (2,1),
2 groups gives a 2×6×2×5 output. -/
theorem conv2d_forward_output_shape_witness :
    conv2dForward (onesT 2 4 5 7) (onesT 6 2 3 3) (.pair 2 1) 2
      = .ok ⟨2, 6, 2, 5, conv2dData (onesT 2 4 5 7) (onesT 6 2 3 3) 2 1 2⟩ :=
  conv2d_forward_output_shape (onesT 2 4 5 7) (onesT 6 2 3 3) 2 1 2 (by decide)
    (by decide) (by decide) (by decide) (by decide) (by decide) (by decide)

/-- C10: passing the scalar stride `s` to Conv2D is the same as passing
the pair `(s, s)`: same forward result, same saved context, hence the
same backward gradients for every `grad_output`. -/
theorem conv2d_scalar_stride_matches_pair (x w grad : Tensor4) (g s : ℕ) (hs : 1 ≤ s) :
    conv2dForward x w (.int s) g = conv2dForward x w (.pair s s) g ∧
    conv2dBackward (conv2dCtx x w (.int s) g) grad
      = conv2dBackward (conv2dCtx x w (.pair s s) g) grad :=
  ⟨rfl, rfl⟩

/-- C10 witness at stride 2 on concrete all-ones operands. -/
theorem conv2d_scalar_stride_matches_pair_witness :
    conv2dForward (onesT 1 1 3 3) (onesT 1 1 2 2) (.int 2) 1
      = conv2dForward (onesT 1 1 3 3) (onesT 1 1 2 2) (.pair 2 2) 1 ∧
    conv2dBackward (conv2dCtx (onesT 1 1 3 3) (onesT 1 1 2 2) (.int 2) 1) (onesT 1 1 1 1)
      = conv2dBackward (conv2dCtx (onesT 1 1 3 3) (onesT 1 1 2 2) (.pair 2 2) 1) (onesT 1 1 1 1) :=
  conv2d_scalar_stride_matches_pair (onesT 1 1 3 3) (onesT 1 1 2 2) (onesT 1 1 1 1) 1 2
    (by norm_num)

/-- C6: convolution with batch=1, cin=1, cout=1, a 3×3 all-ones input,
a 2×2 all-ones kernel, stride 1, groups 1: forward is a 1×1×2×2 tensor
with every element 4; backward against an all-ones `grad_output` gives
`dw` with every element 4 and `dx = [[1,2,1],[2,4,2],[1,2,1]]`. -/
theorem conv2d_ones_concrete :
    conv2dForward (onesT 1 1 3 3) (onesT 1 1 2 2) (.pair 1 1) 1
      = .ok ⟨1, 1, 2, 2, conv2dData (onesT 1 1 3 3) (onesT 1 1 2 2) 1 1 1⟩ ∧
    (conv2dData (onesT 1 1 3 3) (onesT 1 1 2 2) 1 1 1 0 0 0 0 = 4 ∧
     conv2dData (onesT 1 1 3 3) (onesT 1 1 2 2) 1 1 1 0 0 0 1 = 4 ∧
     conv2dData (onesT 1 1 3 3) (onesT 1 1 2 2) 1 1 1 0 0 1 0 = 4 ∧
     conv2dData (onesT 1 1 3 3) (onesT 1 1 2 2) 1 1 1 0 0 1 1 = 4) ∧
    ((conv2dBackwardDw (onesT 1 1 3 3) (onesT 1 1 2 2) (onesT 1 1 2 2) 1 1 1).data 0 0 0 0 = 4 ∧
     (conv2dBackwardDw (onesT 1 1 3 3) (onesT 1 1 2 2) (onesT 1 1 2 2) 1 1 1).data 0 0 0 1 = 4 ∧
     (conv2dBackwardDw (onesT 1 1 3 3) (onesT 1 1 2 2) (onesT 1 1 2 2) 1 1 1).data 0 0 1 0 = 4 ∧
     (conv2dBackwardDw (onesT 1 1 3 3) (onesT 1 1 2 2) (onesT 1 1 2 2) 1 1 1).data 0 0 1 1 = 4) ∧
    ((conv2dBackwardDx (onesT 1 1 3 3) (onesT 1 1 2 2) (onesT 1 1 2 2) 1 1 1).data 0 0 0 0 = 1 ∧
     (conv2dBackwardDx (onesT 1 1 3 3) (onesT 1 1 2 2) (onesT 1 1 2 2) 1 1 1).data 0 0 0 1 = 2 ∧
     (conv2dBackwardDx (onesT 1 1 3 3) (onesT 1 1 2 2) (onesT 1 1 2 2) 1 1 1).data 0 0 0 2 = 1 ∧
     (conv2dBackwardDx (onesT 1 1 3 3) (onesT 1 1 2 2) (onesT 1 1 2 2) 1 1 1).data 0 0 1 0 = 2 ∧
     (conv2dBackwardDx (onesT 1 1 3 3) (onesT 1 1 2 2) (onesT 1 1 2 2) 1 1 1).data 0 0 1 1 = 4 ∧
     (conv2dBackwardDx (onesT 1 1 3 3) (onesT 1 1 2 2) (onesT 1 1 2 2) 1 1 1).data 0 0 1 2 = 2 ∧
     (conv2dBackwardDx (onesT 1 1 3 3) (onesT 1 1 2 2) (onesT 1 1 2 2) 1 1 1).data 0 0 2 0 = 1 ∧
     (conv2dBackwardDx (onesT 1 1 3 3) (onesT 1 1 2 2) (onesT 1 1 2 2) 1 1 1).data 0 0 2 1 = 2 ∧
     (conv2dBackwardDx (onesT 1 1 3 3) (onesT 1 1 2 2) (onesT 1 1 2 2) 1 1 1).data 0 0 2 2 = 1) := by
  refine ⟨rfl, ?_⟩
  simp only [conv2dData, conv2dBackwardDw, conv2dBackwardDx, onesT, Finset.sum_range_succ,
    Finset.sum_range_zero]
  norm_num [convOutDim, Int.fdiv]

/-- One level of the stack built by `stack_for_pool` (froog/ops.py
lines 301-308): level `k = Y*px + X` holds the strided view
`cropped_x[:, :, Y::py, X::px]`, whose element at pooled position
`(oy, ox)` is the input element at `(Y + py*oy, X + px*ox)`. -/
def stackVal (x : Tensor4) (py px k b c oy ox : ℕ) : ℚ :=
  x.data b c ((k / px) + py * oy) ((k % px) + px * ox)

/-- `np.max(stack, axis=0)` over `n` stacked levels (`n ≥ 1` in every
use: `n = py * px`). -/
def npMax (f : ℕ → ℚ) (n : ℕ) : ℚ :=
  (List.range n).foldl (fun m k => max m (f k)) (f 0)

/-- `np.argmax(stack, axis=0)`: the index of the first occurrence of
the maximum — scanning left to right, a later level replaces the
running best only when strictly greater. -/
def npArgmax (f : ℕ → ℚ) (n : ℕ) : ℕ :=
  (List.range n).foldl (fun best k => if f best < f k then k else best) 0

/-- `MaxPool2D.forward`'s output tensor: shape `(bs, c, h//py, w//px)`,
elementwise maximum across the stack. -/
def maxPool2dOut (x : Tensor4) (py px : ℕ) : Tensor4 :=
  ⟨x.bs, x.c, x.h / py, x.w / px,
   fun b c oy ox => npMax (fun k => stackVal x py px k b c oy ox) (py * px)⟩

/-- The `idx_of_max` array `MaxPool2D.forward` saves for backward. -/
def maxPool2dIdx (x : Tensor4) (py px : ℕ) : ℕ → ℕ → ℕ → ℕ → ℕ :=
  fun b c oy ox => npArgmax (fun k => stackVal x py px k b c oy ox) (py * px)

/-- `MaxPool2D.backward` through `unstack_for_pool` (froog/ops.py lines
311-319 and 330-340): the in-crop position `(y, z)` belongs to window
`(y/py, z/px)` at stacked offset `(y%py)*px + z%px` and receives
`grad_output * (idxs == idx)` for that offset; positions outside the
crop keep the `np.zeros` value. -/
def maxPool2dBackward (grad : Tensor4) (idxs : ℕ → ℕ → ℕ → ℕ → ℕ)
    (sbs sc sh sw py px : ℕ) : Tensor4 :=
  ⟨sbs, sc, sh, sw, fun b c y z =>
    if y < (sh / py) * py ∧ z < (sw / px) * px then
      grad.data b c (y / py) (z / px) *
        (if idxs b c (y / py) (z / px) = (y % py) * px + z % px then 1 else 0)
    else 0⟩

/-- `AvgPool2D.forward`: `np.mean(stack, axis=0)`. -/
def avgPool2dOut (x : Tensor4) (py px : ℕ) : Tensor4 :=
  ⟨x.bs, x.c, x.h / py, x.w / px,
   fun b c oy ox =>
     (∑ k in Finset.range (py * px), stackVal x py px k b c oy ox) / ((py : ℚ) * px)⟩

/-- `AvgPool2D.backward` (froog/ops.py lines 350-359): every in-crop
position receives `grad_output / py / px`. -/
def avgPool2dBackward (grad : Tensor4) (sbs sc sh sw py px : ℕ) : Tensor4 :=
  ⟨sbs, sc, sh, sw, fun b c y z =>
    if y < (sh / py) * py ∧ z < (sw / px) * px then
      grad.data b c (y / py) (z / px) / (py : ℚ) / (px : ℚ)
    else 0⟩

theorem npArgmax_succ (f : ℕ → ℚ) (n : ℕ) :
    npArgmax f (n + 1) = if f (npArgmax f n) < f n then n else npArgmax f n := by
  simp [npArgmax, List.range_succ]

theorem npArgmax_lt (f : ℕ → ℚ) (n : ℕ) (hn : 0 < n) : npArgmax f n < n := by
  induction n with
  | zero => omega
  | succ m ih =>
    rw [npArgmax_succ]
    by_cases h : f (npArgmax f m) < f m
    · rw [if_pos h]
      omega
    · rw [if_neg h]
      rcases Nat.eq_zero_or_pos m with hm | hm
      · subst hm
        simp [npArgmax]
      · exact Nat.lt_succ_of_lt (ih hm)

theorem npArgmax_le (f : ℕ → ℚ) (n : ℕ) : ∀ k < n, f k ≤ f (npArgmax f n) := by
  induction n with
  | zero =>
    intro k hk
    omega
  | succ m ih =>
    intro k hk
    rw [npArgmax_succ]
    by_cases h : f (npArgmax f m) < f m
    · rw [if_pos h]
      rcases Nat.lt_succ_iff_lt_or_eq.mp hk with hk | hk
      · exact le_of_lt (lt_of_le_of_lt (ih k hk) h)
      · subst hk
        exact le_refl _
    · rw [if_neg h]
      rcases Nat.lt_succ_iff_lt_or_eq.mp hk with hk | hk
      · exact ih k hk
      · subst hk
        exact le_of_not_lt h

theorem npArgmax_first (f : ℕ → ℚ) (n : ℕ) :
    ∀ k < npArgmax f n, f k < f (npArgmax f n) := by
  induction n with
  | zero =>
    intro k hk
    simp [npArgmax] at hk
  | succ m ih =>
    intro k hk
    rw [npArgmax_succ] at hk ⊢
    by_cases h : f (npArgmax f m) < f m
    · rw [if_pos h] at hk ⊢
      exact lt_of_le_of_lt (npArgmax_le f m k hk) h
    · rw [if_neg h] at hk ⊢
      exact ih k hk

/-- Division and remainder of an in-window position by the pool size
recover the window and the offset. -/
theorem pos_in_window (py Y oy : ℕ) (hY : Y < py) :
    (py * oy + Y) / py = oy ∧ (py * oy + Y) % py = Y := by
  constructor
  · rw [Nat.mul_comm py oy, Nat.add_comm, Nat.add_mul_div_right _ _ (by omega : 0 < py),
      Nat.div_eq_of_lt hY, Nat.zero_add]
  · rw [Nat.mul_comm py oy, Nat.add_comm, Nat.add_mul_mod_self_right, Nat.mod_eq_of_lt hY]

/-- C7: the pooling partition law.  For a window `(oy, ox)` inside the
crop: MaxPool2D's backward puts `grad_output` exactly at the window
position whose stacked offset index equals the recorded argmax — which
is the first (lowest) index attaining the window maximum — and zero at
every other position, so the window's total scattered mass is
`grad_output`; AvgPool2D's backward gives every one of the `py*px`
window positions exactly `grad_output / (py*px)`. -/
theorem pool_partition_law (x grad : Tensor4) (py px b c oy ox : ℕ)
    (hpy : 1 ≤ py) (hpx : 1 ≤ px) (hoy : oy < x.h / py) (hox : ox < x.w / px) :
    (∀ Y X, Y < py → X < px →
      (maxPool2dBackward grad (maxPool2dIdx x py px) x.bs x.c x.h x.w py px).data
          b c (py * oy + Y) (px * ox + X)
        = if maxPool2dIdx x py px b c oy ox = Y * px + X then grad.data b c oy ox else 0) ∧
    maxPool2dIdx x py px b c oy ox < py * px ∧
    (∀ k < py * px,
      stackVal x py px k b c oy ox
        ≤ stackVal x py px (maxPool2dIdx x py px b c oy ox) b c oy ox) ∧
    (∀ k < maxPool2dIdx x py px b c oy ox,
      stackVal x py px k b c oy ox
        < stackVal x py px (maxPool2dIdx x py px b c oy ox) b c oy ox) ∧
    (∑ Y in Finset.range py, ∑ X in Finset.range px,
        (maxPool2dBackward grad (maxPool2dIdx x py px) x.bs x.c x.h x.w py px).data
          b c (py * oy + Y) (px * ox + X))
      = grad.data b c oy ox ∧
    (∀ Y X, Y < py → X < px →
      (avgPool2dBackward grad x.bs x.c x.h x.w py px).data b c (py * oy + Y) (px * ox + X)
        = grad.data b c oy ox / ((py : ℚ) * px)) := by
  have hn : 0 < py * px := Nat.mul_pos hpy hpx
  have hcropY : ∀ Y, Y < py → py * oy + Y < x.h / py * py := by
    intro Y hY
    have h4 : py * (oy + 1) ≤ py * (x.h / py) := Nat.mul_le_mul_left py hoy
    rw [Nat.mul_succ] at h4
    rw [Nat.mul_comm (x.h / py) py]
    omega
  have hcropX : ∀ X, X < px → px * ox + X < x.w / px * px := by
    intro X hX
    have h4 : px * (ox + 1) ≤ px * (x.w / px) := Nat.mul_le_mul_left px hox
    rw [Nat.mul_succ] at h4
    rw [Nat.mul_comm (x.w / px) px]
    omega
  have hback : ∀ Y X, Y < py → X < px →
      (maxPool2dBackward grad (maxPool2dIdx x py px) x.bs x.c x.h x.w py px).data
          b c (py * oy + Y) (px * ox + X)
        = if maxPool2dIdx x py px b c oy ox = Y * px + X then grad.data b c oy ox else 0 := by
    intro Y X hY hX
    have d1 := pos_in_window py Y oy hY
    have d2 := pos_in_window px X ox hX
    simp only [maxPool2dBackward]
    rw [if_pos ⟨hcropY Y hY, hcropX X hX⟩, d1.1, d1.2, d2.1, d2.2]
    by_cases h : maxPool2dIdx x py px b c oy ox = Y * px + X
    · rw [if_pos h, if_pos h, mul_one]
    · rw [if_neg h, if_neg h, mul_zero]
  have hidx : maxPool2dIdx x py px b c oy ox < py * px :=
    npArgmax_lt (fun k => stackVal x py px k b c oy ox) (py * px) hn
  refine ⟨hback, hidx,
    fun k hk => npArgmax_le (fun k => stackVal x py px k b c oy ox) (py * px) k hk,
    fun k hk => npArgmax_first (fun k => stackVal x py px k b c oy ox) (py * px) k hk,
    ?_, ?_⟩
  · -- the partition sum: exactly one offset receives the gradient
    rw [Finset.sum_congr rfl fun Y hY => Finset.sum_congr rfl fun X hX =>
      hback Y X (Finset.mem_range.mp hY) (Finset.mem_range.mp hX)]
    set idx := maxPool2dIdx x py px b c oy ox with hidxdef
    have hY0 : idx / px < py := (Nat.div_lt_iff_lt_mul (by omega)).mpr hidx
    have hX0 : idx % px < px := Nat.mod_lt _ (by omega)
    rw [Finset.sum_eq_single_of_mem (idx / px) (Finset.mem_range.mpr hY0) ?_]
    · rw [Finset.sum_eq_single_of_mem (idx % px) (Finset.mem_range.mpr hX0) ?_]
      · rw [if_pos (by rw [Nat.mul_comm]; exact (Nat.div_add_mod idx px).symm)]
      · intro X hX hne
        refine if_neg fun habs => hne ?_
        have h2 := (pos_in_window px X (idx / px) (Finset.mem_range.mp hX)).2
        rw [habs, Nat.mul_comm (idx / px) px, h2]
    · intro Y hY hne
      refine Finset.sum_eq_zero fun X hX => if_neg fun habs => hne ?_
      have h1 := (pos_in_window px X Y (Finset.mem_range.mp hX)).1
      rw [habs, Nat.mul_comm Y px, h1]
  · intro Y X hY hX
    simp only [avgPool2dBackward]
    rw [if_pos ⟨hcropY Y hY, hcropX X hX⟩, (pos_in_window py Y oy hY).1,
      (pos_in_window px X ox hX).1, div_div]

/-- The 1×1×2×2 input `[[1,3],[2,4]]` of the spec's MaxPool scenario. -/
def poolX : Tensor4 :=
  ⟨1, 1, 2, 2, fun _ _ y z =>
    if y = 0 then (if z = 0 then 1 else 3) else (if z = 0 then 2 else 4)⟩

/-- A 1×1×1×1 upstream gradient holding `5`. -/
def poolG : Tensor4 := ⟨1, 1, 1, 1, fun _ _ _ _ => 5⟩

/-- C7 witness: on `poolX` with a 2×2 kernel the recorded argmax index
is in range and the scattered mass of the single window is exactly the
upstream gradient. -/
theorem pool_partition_law_witness :
    (∑ Y in Finset.range 2, ∑ X in Finset.range 2,
        (maxPool2dBackward poolG (maxPool2dIdx poolX 2 2) 1 1 2 2 2 2).data
          0 0 (2 * 0 + Y) (2 * 0 + X))
      = poolG.data 0 0 0 0 ∧
    maxPool2dIdx poolX 2 2 0 0 0 0 < 2 * 2 ∧
    (avgPool2dBackward poolG 1 1 2 2 2 2).data 0 0 (2 * 0 + 1) (2 * 0 + 1)
      = poolG.data 0 0 0 0 / ((2 : ℚ) * 2) := by
  have h := pool_partition_law poolX poolG 2 2 0 0 0 0 (by decide) (by decide)
    (by decide) (by decide)
  exact ⟨h.2.2.2.2.1, h.2.1, h.2.2.2.2.2 1 1 (by decide) (by decide)⟩

/-- `Sigmoid.forward` (froog/ops.py lines 132-136): it first runs
`ctx.save_for_backward(input)` — saving the INPUT — and then returns
`ret = 1/(1 + exp(-input))`.  The pair is `(returned value, saved
tensor)`. -/
noncomputable def sigmoidForward (input : ℝ) : ℝ × ℝ :=
  (1 / (1 + Real.exp (-input)), input)

/-- The mathematical sigmoid, for stating what the backward should
produce according to the spec. -/
noncomputable def sigmoid (x : ℝ) : ℝ := 1 / (1 + Real.exp (-x))

/-- `Sigmoid.backward` (froog/ops.py lines 138-142): reads the saved
tensor (calling it `ret`) and returns `grad_output * (ret * (1 - ret))`. -/
noncomputable def sigmoidBackward (saved grad : ℝ) : ℝ :=
  grad * (saved * (1 - saved))

/-- C1 (code bug): `Sigmoid.forward` saves the input, not the output,
so at `x = 0` with `grad_output = 1` the backward returns
`1 * (0 * (1 - 0)) = 0`, while the claimed
`grad * sigmoid(x) * (1 - sigmoid(x))` is `1/4 ≠ 0`. -/
theorem sigmoid_backward_uses_saved_input :
    (sigmoidForward 0).2 = 0 ∧
    (sigmoidForward 0).1 = 1 / 2 ∧
    sigmoidBackward (sigmoidForward 0).2 1 = 0 ∧
    1 * (sigmoid 0 * (1 - sigmoid 0)) = 1 / 4 ∧
    (0 : ℝ) ≠ 1 / 4 := by
  refine ⟨rfl, ?_, by norm_num [sigmoidBackward, sigmoidForward], ?_, by norm_num⟩
  · simp [sigmoidForward, Real.exp_zero]
    norm_num
  · simp [sigmoid, Real.exp_zero]
    norm_num

/-- numpy's broadcast error for 1-d operands whose lengths differ and
neither is 1. -/
inductive NpErr where
  | broadcastError
  deriving DecidableEq

/-- `Add.forward` is the bare numpy `x + y` (froog/ops.py line 26,
frog/ops.py line 12): no shape check of its own, so numpy's 1-d
broadcasting semantics apply — equal lengths add elementwise, a
length-1 operand is broadcast, anything else is numpy's broadcast
error. -/
def addForward (x y : List ℚ) : Except NpErr (List ℚ) :=
  if x.length = y.length then .ok (List.zipWith (· + ·) x y)
  else if x.length = 1 then .ok (y.map (fun v => x.headI + v))
  else if y.length = 1 then .ok (x.map (fun v => v + y.headI))
  else .error .broadcastError

/-- `Add.backward`: `return grad_output, grad_output`. -/
def addBackward (grad : List ℚ) : List ℚ × List ℚ := (grad, grad)

/-- C2 counterexample: operands of shapes `(1,)` and `(2,)` differ, yet
`Add.forward` succeeds by broadcasting instead of failing with a
ShapeError. -/
theorem add_broadcasts_on_mismatched_shapes :
    addForward [5] [1, 2] = .ok [6, 7] ∧ List.length [(5 : ℚ)] ≠ List.length [(1 : ℚ), 2] := by
  constructor
  · norm_num [addForward]
  · decide

/-- C2 (amended): `Add.forward` performs no shape validation of its
own.  Operands of equal length add elementwise and backward returns
`(grad_output, grad_output)`; a length-1 operand is broadcast rather
than raising a ShapeError; only operands whose lengths differ with
neither equal to 1 fail, and with numpy's broadcast error, not a
ShapeError issued by Add. -/
theorem add_forward_backward_semantics :
    (∀ x y : List ℚ, x.length = y.length → addForward x y = .ok (List.zipWith (· + ·) x y)) ∧
    (∀ (a : ℚ) (y : List ℚ), 1 < y.length → addForward [a] y = .ok (y.map (fun v => a + v))) ∧
    (∀ (x : List ℚ) (a : ℚ), 1 < x.length → addForward x [a] = .ok (x.map (fun v => v + a))) ∧
    (∀ x y : List ℚ, x.length ≠ y.length → x.length ≠ 1 → y.length ≠ 1 →
      addForward x y = .error .broadcastError) ∧
    (∀ grad : List ℚ, addBackward grad = (grad, grad)) := by
  refine ⟨fun x y h => ?_, fun a y h => ?_, fun x a h => ?_, fun x y h h1 h2 => ?_,
    fun grad => rfl⟩
  · rw [addForward, if_pos h]
  · rw [addForward, if_neg (by simp; omega), if_pos (show List.length [a] = 1 by rfl)]
    rfl
  · rw [addForward, if_neg (by simp; omega), if_neg (by omega),
      if_pos (show List.length [a] = 1 by rfl)]
    rfl
  · rw [addForward, if_neg h, if_neg h1, if_neg h2]

/-- C2 witness: equal 2-element operands add elementwise, and backward
duplicates the gradient. -/
theorem add_forward_backward_semantics_witness :
    addForward [1, 2] [10, 20] = .ok [11, 22] ∧ addBackward [3, 4] = ([3, 4], [3, 4]) := by
  constructor
  · rw [add_forward_backward_semantics.1 [1, 2] [10, 20] (by decide)]
    norm_num
  · exact add_forward_backward_semantics.2.2.2.2 [3, 4]

/-- `ReLU.forward` (identical in frog/ops.py and froog/ops.py):
elementwise `np.maximum(input, 0)`. -/
def reluForward (input : List ℚ) : List ℚ := input.map (fun v => max v 0)

/-- frog/ops.py `ReLU.backward` (lines 38-43):
`grad_input = grad_output.copy(); grad_input[input < 0] = 0` — masked
assignment zeroing the positions whose input is strictly negative. -/
def frogReluBackward (input grad : List ℚ) : List ℚ :=
  List.zipWith (fun iv g => if iv < 0 then 0 else g) input grad

/-- froog/ops.py `ReLU.backward` (lines 124-128):
`grad_output * (input >= 0)` — multiplication by the boolean mask of
nonnegative inputs. -/
def froogReluBackward (input grad : List ℚ) : List ℚ :=
  List.zipWith (fun iv g => g * (if 0 ≤ iv then 1 else 0)) input grad

/-- The two duplicated ReLU backwards compute the same value at every
position: zeroing where `input < 0` and keeping the rest is the same
function as multiplying by the indicator of `input >= 0`. -/
theorem reluBackward_eq (input grad : List ℚ) :
    frogReluBackward input grad = froogReluBackward input grad := by
  unfold frogReluBackward froogReluBackward
  induction input generalizing grad with
  | nil => rfl
  | cons iv tl ih =>
    cases grad with
    | nil => rfl
    | cons g gtl =>
      simp only [List.zipWith]
      rw [ih gtl]
      congr 1
      by_cases h : iv < 0
      · rw [if_pos h, if_neg (not_le.mpr h), mul_zero]
      · rw [if_neg h, if_pos (le_of_not_lt h), mul_one]

/-- C3 counterexample: the two duplicated ReLU backward implementations
are one and the same function — there is no input/grad_output pair on
which they return different gradients. -/
theorem relu_backward_impls_are_equal : frogReluBackward = froogReluBackward :=
  funext fun input => funext fun grad => reluBackward_eq input grad

/-- C3 (amended): the textual difference between the two duplicated
ReLU backwards (masked assignment on `input < 0` versus multiplication
by the `input >= 0` indicator) does not change the function: they agree
on every input and grad_output, and in particular both pass the
gradient through at input exactly zero. -/
theorem relu_backward_boundary_agreement :
    (∀ input grad : List ℚ, frogReluBackward input grad = froogReluBackward input grad) ∧
    (∀ g : ℚ, frogReluBackward [0] [g] = [g] ∧ froogReluBackward [0] [g] = [g]) := by
  refine ⟨reluBackward_eq, fun g => ⟨?_, ?_⟩⟩
  · simp [frogReluBackward]
  · simp [froogReluBackward]

/-- The error kind of the spec for an intentionally missing backward. -/
inductive BackwardErr where
  | unimplementedBackward
  deriving DecidableEq

/-- `Pad2D.forward` (froog/ops.py lines 161-163):
`np.pad(x, ((0,0), (0,0), (top, bottom), (left, right)))` — zero-pads
the last two axes, leaving batch and channel untouched. -/
def pad2dForward (x : Tensor4) (top bottom left right : ℕ) : Tensor4 :=
  ⟨x.bs, x.c, top + x.h + bottom, left + x.w + right, fun b c y z =>
    if top ≤ y ∧ y < top + x.h ∧ left ≤ z ∧ z < left + x.w then
      x.data b c (y - top) (z - left)
    else 0⟩

/-- `Pad2D.backward` (froog/ops.py lines 165-167):
`raise Exception("write this")` — it fails unconditionally, before
producing anything; the spec's UnimplementedBackward kind. -/
def pad2dBackward (grad : Tensor4) : Except BackwardErr Tensor4 :=
  .error .unimplementedBackward

/-- C8: for every grad_output, `Pad2D.backward` fails immediately with
the UnimplementedBackward error; since its only outcome is that error
value, it never returns a gradient tensor. -/
theorem pad2d_backward_always_fails (grad : Tensor4) :
    pad2dBackward grad = .error .unimplementedBackward :=
  rfl

/-- Modelled from the spec: `im2col` lives in `froog/utils.py`, which
the repository sources do not include.  Per §4.5 the forward transform
turns "the input into a matrix where each row is one flattened
receptive field across the whole spatial output range".  The row index
is kept structured as `(b, y, z)` — the order that
`im2ColConv.forward`'s `reshape(bs, oy, ox, cout)` requires — and the
column index as `(ci, i, j)`. -/
def im2col (x : Tensor4) : ℕ → ℕ → ℕ → ℕ → ℕ → ℕ → ℚ :=
  fun b y z ci i j => x.data b ci (y + i) (z + j)

/-- `im2ColConv.forward` (froog/ops.py lines 268-276):
`oy = H_in - (k_h - 1)`, `ox = W_in - (k_x - 1)`;
`ret = tx.dot(tw)` is reshaped to `(bs, oy, ox, cout)` and move-axed to
`(bs, cout, oy, ox)`, so cell `(b, co, y, z)` holds the dot product of
row `(b, y, z)` of the column matrix with kernel column `co`. -/
def im2colConvForward (x w : Tensor4) : Tensor4 :=
  ⟨x.bs, w.bs, x.h - (w.h - 1), x.w - (w.w - 1), fun b co y z =>
    if y < x.h - (w.h - 1) ∧ z < x.w - (w.w - 1) then
      ∑ ci in Finset.range w.c, ∑ i in Finset.range w.h, ∑ j in Finset.range w.w,
        im2col x b y z ci i j * w.data co ci i j
    else 0⟩

/-- Modelled from the spec: `col2im` (`froog/utils.py`, absent) — "the
inverse column-to-image transform scatters the gradient columns back
into the overlapping input positions, again summing overlapping
contributions" (§4.5).  Image cell `(b, c, p, q)` collects the entry of
every column row `(b, y, z)` whose receptive field covers it. -/
def col2im (cols : ℕ → ℕ → ℕ → ℕ → ℕ → ℕ → ℚ) (kh kw oy ox : ℕ) : ℕ → ℕ → ℕ → ℕ → ℚ :=
  fun b c p q =>
    ∑ y in Finset.range oy, ∑ z in Finset.range ox,
      ∑ i in Finset.range kh, ∑ j in Finset.range kw,
        if p = y + i ∧ q = z + j then cols b y z c i j else 0

/-- `im2ColConv.backward`'s `dx` (froog/ops.py lines 278-288):
`dxi = gg.T.dot(tw)` holds, at row `(b, y, z)` and column `(ci, i, j)`,
the sum over output channels of `grad * w`; `col2im` scatters it into
an image of height `oy + (H-1)` and width `ox + (W-1)`. -/
def im2colConvBackwardDx (w grad : Tensor4) : Tensor4 :=
  ⟨grad.bs, w.c, grad.h + (w.h - 1), grad.w + (w.w - 1),
   col2im (fun b y z ci i j => ∑ co in Finset.range w.bs, grad.data b co y z * w.data co ci i j)
     w.h w.w grad.h grad.w⟩

/-- `im2ColConv.backward`'s `dw`: `gg.dot(tx)` reshaped to the kernel
shape — cell `(co, ci, i, j)` sums `grad * tx` over every row
`(b, y, z)` of the saved column matrix. -/
def im2colConvBackwardDw (x w grad : Tensor4) : Tensor4 :=
  ⟨w.bs, w.c, w.h, w.w, fun co ci i j =>
    ∑ b in Finset.range grad.bs, ∑ y in Finset.range grad.h, ∑ z in Finset.range grad.w,
      grad.data b co y z * im2col x b y z ci i j⟩

/-- Gather form of the scatter: summing `if p = y+i ∧ q = z+j` over the
kernel offsets collapses to the window-membership test. -/
theorem window_gather (kh kw y z p q : ℕ) (S : ℕ → ℕ → ℚ) :
    (∑ i in Finset.range kh, ∑ j in Finset.range kw,
        if p = y + i ∧ q = z + j then S i j else 0)
      = if y ≤ p ∧ p < y + kh ∧ z ≤ q ∧ q < z + kw then S (p - y) (q - z) else 0 := by
  by_cases hcond : y ≤ p ∧ p < y + kh ∧ z ≤ q ∧ q < z + kw
  · obtain ⟨h1, h2, h3, h4⟩ := hcond
    rw [if_pos ⟨h1, h2, h3, h4⟩]
    rw [Finset.sum_eq_single_of_mem (p - y) (Finset.mem_range.mpr (by omega)) ?_]
    · rw [Finset.sum_eq_single_of_mem (q - z) (Finset.mem_range.mpr (by omega)) ?_]
      · rw [if_pos ⟨by omega, by omega⟩]
      · intro j hj hne
        refine if_neg fun habs => hne ?_
        omega
    · intro i hi hne
      refine Finset.sum_eq_zero fun j hj => if_neg fun habs => hne ?_
      omega
  · rw [if_neg hcond]
    refine Finset.sum_eq_zero fun i hi => Finset.sum_eq_zero fun j hj => if_neg ?_
    rintro ⟨hp, hq⟩
    have hi' := Finset.mem_range.mp hi
    have hj' := Finset.mem_range.mp hj
    exact hcond ⟨by omega, by omega, by omega, by omega⟩

/-- C9: with groups=1 and stride=1 the im2col-accelerated convolution
agrees with the naive Conv2D: the forward tensors have the same shape
and the same entries at every in-range index, and for every
`grad_output` of the forward output's shape the backward pairs
`(dx, dw)` agree likewise.  (`im2col`/`col2im` themselves are modelled
from the spec, their source file being absent.) -/
theorem im2col_conv_matches_naive (x w grad : Tensor4)
    (hkh : 1 ≤ w.h) (hkw : 1 ≤ w.w) (hh : w.h ≤ x.h) (hw : w.w ≤ x.w)
    (hc : x.c = w.c)
    (hgb : grad.bs = x.bs) (hgh : grad.h = x.h - (w.h - 1)) (hgw : grad.w = x.w - (w.w - 1)) :
    (conv2dForward x w (.pair 1 1) 1
       = .ok ⟨x.bs, w.bs, (im2colConvForward x w).h, (im2colConvForward x w).w,
              conv2dData x w 1 1 1⟩) ∧
    ((im2colConvForward x w).bs = x.bs ∧ (im2colConvForward x w).c = w.bs) ∧
    (∀ b co y z, co < w.bs →
      (im2colConvForward x w).data b co y z = conv2dData x w 1 1 1 b co y z) ∧
    ((im2colConvBackwardDx w grad).bs = x.bs ∧ (im2colConvBackwardDx w grad).c = x.c ∧
     (im2colConvBackwardDx w grad).h = x.h ∧ (im2colConvBackwardDx w grad).w = x.w) ∧
    (∀ b c p q, c < w.c →
      (im2colConvBackwardDx w grad).data b c p q
        = (conv2dBackwardDx x w grad 1 1 1).data b c p q) ∧
    (∀ co ci i j, co < w.bs →
      (im2colConvBackwardDw x w grad).data co ci i j
        = (conv2dBackwardDw x w grad 1 1 1).data co ci i j) := by
  have ehh : x.h - (w.h - 1) = x.h - w.h + 1 := by omega
  have eww : x.w - (w.w - 1) = x.w - w.w + 1 := by omega
  refine ⟨?_, ⟨rfl, rfl⟩, ?_, ?_, ?_, ?_⟩
  · -- the naive forward succeeds with the im2col shape
    have h := conv2dForward_ok x w 1 1 1 (by rw [hc, Nat.mul_one]) (one_dvd _) hh hw
      le_rfl le_rfl
    rw [h]
    simp only [im2colConvForward, Nat.div_one, ehh, eww]
  · -- forward entries agree
    intro b co y z hco
    have e1 := convOutDim_eq_of x.h w.h 1 hh le_rfl
    have e2 := convOutDim_eq_of x.w w.w 1 hw le_rfl
    simp only [im2colConvForward, conv2dData, im2col, e1, e2, Nat.div_one, mul_one,
      Nat.div_eq_of_lt hco, Nat.zero_mul, Nat.zero_add, Nat.cast_lt, ehh, eww]
  · -- dx shape
    refine ⟨hgb, hc.symm, ?_, ?_⟩
    · simp only [im2colConvBackwardDx, hgh]
      omega
    · simp only [im2colConvBackwardDx, hgw]
      omega
  · -- dx entries agree
    intro b c p q hcc
    simp only [im2colConvBackwardDx, conv2dBackwardDx, col2im, Nat.div_one, mul_one,
      Nat.div_eq_of_lt hcc, Nat.zero_mul, Nat.zero_add, Nat.mod_eq_of_lt hcc]
    refine Finset.sum_congr rfl fun y hy => Finset.sum_congr rfl fun z hz => ?_
    rw [window_gather w.h w.w y z p q
      (fun i j => ∑ co in Finset.range w.bs, grad.data b co y z * w.data co c i j)]
    by_cases hcond : y ≤ p ∧ p < y + w.h ∧ z ≤ q ∧ q < z + w.w
    · rw [if_pos hcond]
      exact (Finset.sum_congr rfl fun oc _ => if_pos hcond).symm
    · rw [if_neg hcond]
      exact (Finset.sum_eq_zero fun oc _ => if_neg hcond).symm
  · -- dw entries agree
    intro co ci i j hco
    simp only [im2colConvBackwardDw, conv2dBackwardDw, im2col, Nat.div_one, mul_one,
      Nat.div_eq_of_lt hco, Nat.zero_mul, Nat.zero_add, hgb]
    exact Finset.sum_comm.trans (Finset.sum_congr rfl fun y _ => Finset.sum_comm)

/-- C9 witness: a 1×1×2×2 all-ones input with a 1×1 kernel and an
all-ones grad_output of the output shape — both paths agree entrywise
on forward, `dx` and `dw`. -/
theorem im2col_conv_matches_naive_witness :
    (im2colConvForward (onesT 1 1 2 2) (onesT 1 1 1 1)).data 0 0 0 0
      = conv2dData (onesT 1 1 2 2) (onesT 1 1 1 1) 1 1 1 0 0 0 0 ∧
    (im2colConvBackwardDx (onesT 1 1 1 1) (onesT 1 1 2 2)).data 0 0 1 1
      = (conv2dBackwardDx (onesT 1 1 2 2) (onesT 1 1 1 1) (onesT 1 1 2 2) 1 1 1).data 0 0 1 1 ∧
    (im2colConvBackwardDw (onesT 1 1 2 2) (onesT 1 1 1 1) (onesT 1 1 2 2)).data 0 0 0 0
      = (conv2dBackwardDw (onesT 1 1 2 2) (onesT 1 1 1 1) (onesT 1 1 2 2) 1 1 1).data 0 0 0 0 := by
  have h := im2col_conv_matches_naive (onesT 1 1 2 2) (onesT 1 1 1 1) (onesT 1 1 2 2)
    (by decide) (by decide) (by decide) (by decide) (by decide) (by decide) (by decide) (by decide)
  exact ⟨h.2.2.1 0 0 0 0 (by decide), h.2.2.2.2.1 0 0 1 1 (by decide),
    h.2.2.2.2.2 0 0 0 0 (by decide)⟩
